import Mathlib

/-!
Verification model of the Ledger core of `src/finance_tracker.py`.

The Python module keeps a pandas DataFrame of transactions with columns
Date, Amount, Category, Description, guarded by three validators:

* dates are parsed with `datetime.strptime(text, "%d-%m-%Y")`;
* amounts are parsed with `float(text)`;
* categories must be members of `CATEGORIES = ["Income", "Expense", "Investment"]`.

This file embeds those operations as executable Lean functions and proves
the spec-level claims about them.  Amounts are modelled as exact rationals
(`ℚ`) rather than IEEE doubles; the IEEE special spellings `inf`/`nan`
accepted by Python `float` are outside the modelled amount domain.  Digits
are modelled as ASCII digits (CPython's `\d` additionally matches other
Unicode decimal digits; those exotic inputs are outside the model).

The persistence layer is modelled down to the load-side coercions of
pandas: `to_datetime(..., errors="coerce")` turns dates outside the
Timestamp range into `NaT` (`coerceDMY`), and `read_csv` reads the default
missing-value spellings as `NaN` (`readCell`), so a transaction's
description is an `Option String` whose `none` is the pandas missing value.
-/

/-- A calendar date as produced by `datetime.strptime`; only the
year/month/day fields matter to the tracker (time parts are always zero). -/
structure Date where
  year : Nat
  month : Nat
  day : Nat
deriving DecidableEq

/-- Proleptic-Gregorian leap-year rule used by Python `datetime`. -/
def isLeap (y : Nat) : Bool :=
  decide (y % 4 = 0 ∧ (y % 100 ≠ 0 ∨ y % 400 = 0))

/-- Number of days in a month, as validated by the `datetime.date`
constructor that `strptime` calls. -/
def daysInMonth (y m : Nat) : Nat :=
  if m = 2 then (if isLeap y then 29 else 28)
  else if m = 4 ∨ m = 6 ∨ m = 9 ∨ m = 11 then 30
  else 31

/-- Numeric value of an ASCII digit character. -/
def charDigitVal (c : Char) : Nat := c.toNat - 48

/-- Value of a big-endian list of decimal digit characters. -/
def natOfDigits (cs : List Char) : Nat :=
  cs.foldl (fun a c => 10 * a + charDigitVal c) 0

/-- All characters are ASCII digits. -/
def allDigits (cs : List Char) : Bool := cs.all Char.isDigit

/-- Split a character list at every dash, keeping empty segments: the shape
of the `"%d-%m-%Y"` format string, whose literal separators are dashes. -/
def splitDash : List Char → List (List Char)
  | [] => [[]]
  | c :: rest =>
    if c = '-' then [] :: splitDash rest
    else
      match splitDash rest with
      | [] => [[c]]
      | g :: gs => (c :: g) :: gs

/-- Concatenate dash-separated groups back into one character list. -/
def joinDash : List (List Char) → List Char
  | [] => []
  | [g] => g
  | g :: gs => g ++ '-' :: joinDash gs

/-- The `%d` field of CPython `_strptime`: one or two digit characters whose
value is between 1 and 31 (regex `3[01]|[12]\d|0[1-9]|[1-9]`). -/
def dayTok (cs : List Char) : Option Nat :=
  if allDigits cs = true ∧ 1 ≤ cs.length ∧ cs.length ≤ 2 ∧
      1 ≤ natOfDigits cs ∧ natOfDigits cs ≤ 31 then
    some (natOfDigits cs)
  else none

/-- The `%m` field of CPython `_strptime`: one or two digit characters whose
value is between 1 and 12 (regex `1[0-2]|0[1-9]|[1-9]`). -/
def monthTok (cs : List Char) : Option Nat :=
  if allDigits cs = true ∧ 1 ≤ cs.length ∧ cs.length ≤ 2 ∧
      1 ≤ natOfDigits cs ∧ natOfDigits cs ≤ 12 then
    some (natOfDigits cs)
  else none

/-- The `%Y` field of CPython `_strptime`: exactly four digit characters
(regex `\d\d\d\d`); the year must be at least `datetime.MINYEAR = 1`,
enforced by the `datetime.date` constructor. -/
def yearTok (cs : List Char) : Option Nat :=
  if allDigits cs = true ∧ cs.length = 4 ∧ 1 ≤ natOfDigits cs then
    some (natOfDigits cs)
  else none

/-- `datetime.strptime(s, "%d-%m-%Y")`, returning `none` where Python raises
`ValueError`.  The whole string must be consumed (strptime rejects
unconverted data), the three fields are separated by literal dashes, and the
resulting day must exist in the resulting month. -/
def strptimeDMY (s : String) : Option Date :=
  match splitDash s.data with
  | [ds, ms, ys] =>
    match dayTok ds, monthTok ms, yearTok ys with
    | some d, some m, some y =>
      if d ≤ daysInMonth y m then some ⟨y, m, d⟩ else none
    | _, _, _ => none
  | _ => none

/-- Two-digit zero-padded decimal rendering (`%d` / `%m` on output). -/
def pad2 (n : Nat) : List Char :=
  [Nat.digitChar (n / 10), Nat.digitChar (n % 10)]

/-- Four-digit zero-padded decimal rendering (`%Y` on output; every pandas
Timestamp year 1677–2262 prints as four digits). -/
def pad4 (n : Nat) : List Char :=
  [Nat.digitChar (n / 1000), Nat.digitChar (n / 100 % 10),
   Nat.digitChar (n / 10 % 10), Nat.digitChar (n % 10)]

/-- Serialization of a date under `date_format="%d-%m-%Y"`, as used by
`to_csv` in `save_data`. -/
def formatDMY (dt : Date) : String :=
  ⟨pad2 dt.day ++ '-' :: pad2 dt.month ++ '-' :: pad4 dt.year⟩

/-- A date value that `formatDMY` and `strptimeDMY` round-trip: a real
calendar day with a four-digit year. -/
def dateValid (dt : Date) : Bool :=
  decide (1 ≤ dt.year ∧ dt.year ≤ 9999 ∧ 1 ≤ dt.month ∧ dt.month ≤ 12 ∧
    1 ≤ dt.day ∧ dt.day ≤ daysInMonth dt.year dt.month)

/-- Chronological order on dates, as `datetime`/`Timestamp` comparison:
lexicographic on (year, month, day). -/
def Date.le (a b : Date) : Bool :=
  if a.year < b.year then true
  else if b.year < a.year then false
  else if a.month < b.month then true
  else if b.month < a.month then false
  else decide (a.day ≤ b.day)

/-- Spec-side reading of "date `a` is on or before date `b`". -/
def specLe (a b : Date) : Prop :=
  a.year < b.year ∨
    (a.year = b.year ∧
      (a.month < b.month ∨ (a.month = b.month ∧ a.day ≤ b.day)))

instance (a b : Date) : Decidable (specLe a b) := by
  unfold specLe
  infer_instance

/-- A midnight date representable as a pandas Timestamp (a signed 64-bit
nanosecond count): `Timestamp.min` is 1677-09-21 00:12:43.145224193 and
`Timestamp.max` is 2262-04-11 23:47:16.854775807, so midnight of a day is in
range exactly between 1677-09-22 and 2262-04-11. -/
def inTimestampBounds (dt : Date) : Bool :=
  Date.le ⟨1677, 9, 22⟩ dt && Date.le dt ⟨2262, 4, 11⟩

/-- `pd.to_datetime(s, format="%d-%m-%Y", errors="coerce")` on one cell:
`strptime` parsing, but a parseable date outside the pandas Timestamp range
is coerced to `NaT` (`OutOfBoundsDatetime` is swallowed by `coerce`), which
`dropna` then removes just like a parse failure. -/
def coerceDMY (s : String) : Option Date :=
  match strptimeDMY s with
  | some dt => if inTimestampBounds dt = true then some dt else none
  | none => none

/-- ASCII whitespace accepted (and stripped) around a `float` literal. -/
def isSpaceChar (c : Char) : Bool :=
  decide (c = ' ' ∨ c = '\t' ∨ c = '\n' ∨ c = '\r' ∨ c.toNat = 11 ∨ c.toNat = 12)

/-- Strip leading and trailing whitespace, as Python `float` does. -/
def trimWs (cs : List Char) : List Char :=
  ((cs.dropWhile isSpaceChar).reverse.dropWhile isSpaceChar).reverse

/-- Consume a Python `digitpart`: digits with single underscores allowed
between digits only.  Returns the accumulated value, the number of digits
consumed, and the unconsumed remainder. -/
def digitsLoop : List Char → Nat → Nat → Nat × Nat × List Char
  | '_' :: c :: rest, acc, n =>
    if c.isDigit then digitsLoop rest (10 * acc + charDigitVal c) (n + 1)
    else (acc, n, '_' :: c :: rest)
  | ['_'], acc, n => (acc, n, ['_'])
  | c :: rest, acc, n =>
    if c.isDigit then digitsLoop rest (10 * acc + charDigitVal c) (n + 1)
    else (acc, n, c :: rest)
  | [], acc, n => (acc, n, [])

/-- Mantissa value from integer part, fraction digits and fraction length. -/
def mantissaVal (iv fv fn : Nat) : ℚ := (iv : ℚ) + (fv : ℚ) / (10 : ℚ) ^ fn

/-- Parse the mantissa of a `float` literal (`digitpart [. [digitpart]]` or
`. digitpart`); returns its value and the unconsumed remainder. -/
def parseMantissa (cs : List Char) : Option (ℚ × List Char) :=
  match cs with
  | '.' :: rest =>
    match rest with
    | c :: _ =>
      if c.isDigit then
        match digitsLoop rest 0 0 with
        | (fv, fn, r) => some (mantissaVal 0 fv fn, r)
      else none
    | [] => none
  | c :: _ =>
    if c.isDigit then
      match digitsLoop cs 0 0 with
      | (iv, _, r) =>
        match r with
        | '.' :: r2 =>
          match r2 with
          | c2 :: _ =>
            if c2.isDigit then
              match digitsLoop r2 0 0 with
              | (fv, fn, r3) => some (mantissaVal iv fv fn, r3)
            else some ((iv : ℚ), r2)
          | [] => some ((iv : ℚ), [])
        | _ => some ((iv : ℚ), r)
    else none
  | [] => none

/-- Parse the exponent suffix of a `float` literal; the whole remainder must
be consumed (Python rejects trailing junk).  Returns the signed exponent. -/
def parseExpPart : List Char → Option Int
  | [] => some 0
  | c :: rest =>
    if c = 'e' ∨ c = 'E' then
      match
        (match rest with
          | '+' :: r => some ((1 : Int), r)
          | '-' :: r => some ((-1 : Int), r)
          | r => some ((1 : Int), r)) with
      | some (esgn, r1) =>
        match r1 with
        | c2 :: _ =>
          if c2.isDigit then
            match digitsLoop r1 0 0 with
            | (ev, _, r2) => if r2 = [] then some (esgn * ev) else none
          else none
        | [] => none
      | none => none
    else none

/-- Python `float(text)` on finite numeric literals, returning `none` where
Python raises `ValueError`: optional surrounding whitespace, optional sign,
mantissa with optional fraction, optional exponent; underscores only between
digits.  The value is the exact rational the literal denotes. -/
def parse_amount (s : String) : Option ℚ :=
  let cs := trimWs s.data
  let sgnAndRest : ℚ × List Char :=
    match cs with
    | '+' :: r => (1, r)
    | '-' :: r => (-1, r)
    | _ => (1, cs)
  match parseMantissa sgnAndRest.2 with
  | some (num, rest) =>
    match parseExpPart rest with
    | some e => some (sgnAndRest.1 * num * (10 : ℚ) ^ e)
    | none => none
  | none => none

/-- The default missing-value spellings of `pd.read_csv`
(`STR_NA_VALUES`): a cell holding exactly one of these strings is read as
the missing value `NaN`, not as text. -/
def PANDAS_NA : List String :=
  ["", "#N/A", "#N/A N/A", "#NA", "-1.#IND", "-1.#QNAN", "-NaN", "-nan",
   "1.#IND", "1.#QNAN", "<NA>", "N/A", "NA", "NULL", "NaN", "None",
   "n/a", "nan", "null"]

/-- The boolean spellings recognized by the `read_csv` tokenizer; a column
made up solely of these is inferred as a boolean column. -/
def PANDAS_BOOL : List String := ["True", "TRUE", "true", "False", "FALSE", "false"]

/-- Lower-case an ASCII letter (identity on everything else). -/
def lowerAscii (c : Char) : Char :=
  if 'A' ≤ c ∧ c ≤ 'Z' then Char.ofNat (c.toNat + 32) else c

/-- Drop one leading sign character. -/
def stripSign : List Char → List Char
  | '+' :: r => r
  | '-' :: r => r
  | cs => cs

/-- A cell spelling that the `read_csv` numeric converter could turn into a
number: any Python float literal (a superset of the tokenizer's grammar),
or a case-insensitive signed `inf`/`infinity`/`nan` spelling. -/
def numericLike (s : String) : Bool :=
  (parse_amount s).isSome ||
    (let t := (stripSign s.data).map lowerAscii
     decide (t = "inf".data ∨ t = "infinity".data ∨ t = "nan".data))

/-- A sufficient per-cell condition for `read_csv` to return exactly this
string as text: not a missing-value spelling (modelled in `readCell`), and
not a spelling that column-wise dtype inference could convert to a boolean
or a number (column-wise conversion is not modelled; the claims below
restrict themselves to cells satisfying this predicate, where no conversion
can occur whatever the rest of the column holds). -/
def keptAsText (s : String) : Bool :=
  !PANDAS_NA.contains s && !PANDAS_BOOL.contains s && !numericLike s

/-- Reading one text cell with `read_csv`: an NA spelling becomes the
missing value (`none`, pandas `NaN`), anything else is kept as text. -/
def readCell (s : String) : Option String :=
  if PANDAS_NA.contains s = true then none else some s

/-- An in-memory text value that is a present string kept verbatim by a
persist/reload cycle. -/
def presentKeptAsText : Option String → Bool
  | some d => keptAsText d
  | none => false

/-- The canonical category list `CATEGORIES` of the tracker. -/
def CATEGORIES : List String := ["Income", "Expense", "Investment"]

/-- One in-memory transaction: a row of the DataFrame after its Date column
has been converted to datetime values.  The description is `some s` for a
Python string and `none` for the pandas missing value (`NaN`), which arises
when a persisted description cell holds an NA spelling; `add_transaction`
only ever stores present strings. -/
structure Transaction where
  date : Date
  amount : ℚ
  category : String
  description : Option String
deriving DecidableEq

/-- The in-memory ledger: the DataFrame rows in order. -/
abbrev Ledger := List Transaction

/-- One persisted CSV data row, as raw cell text (standard CSV
quoting/unquoting of the delimited fields is abstracted away).  The amount
field is the rational the Amount cell's numeral denotes — Python floats
round-trip through `repr`, so numeric serialization is modelled as the
identity; non-numeric Amount cells are outside the modelled file domain.
The load-side coercions `read_csv` and `to_datetime` apply to these raw
cells are modelled in `rowToTransaction`. -/
structure FileRow where
  date : String
  amount : ℚ
  category : String
  description : String
deriving DecidableEq

/-- Serialization of one ledger row by `save_data` (`to_csv` with
`date_format="%d-%m-%Y"`, fixed column order Date, Amount, Category,
Description).  A missing description (pandas `NaN`) is written as an empty
cell, exactly like the empty string. -/
def serialize (t : Transaction) : FileRow :=
  ⟨formatDMY t.date, t.amount, t.category, t.description.getD ""⟩

/-- Load one persisted row: `read_csv` reads the Description cell under the
missing-value rules (`readCell`), then `pd.to_datetime(..., format=FORMAT,
errors="coerce")` followed by `dropna` keeps exactly the rows whose date
text parses to an in-range Timestamp (`coerceDMY`).  A Date cell holding an
NA spelling is read as missing and equally dropped — no NA spelling parses
as a date, so `coerceDMY` already returns `none` there.  The Category cell
is also subject to the missing-value rules; a row whose category is an NA
spelling is loaded with a missing category, which this model (whose
categories are plain strings) reads as raw text instead — every theorem
below about loaded categories assumes cells that the rules keep as text
(canonical categories always are). -/
def rowToTransaction (r : FileRow) : Option Transaction :=
  match coerceDMY r.date with
  | some dt => some ⟨dt, r.amount, r.category, readCell r.description⟩
  | none => none

/-- `Finance.initialize`: `none` models a missing/contentless file
(`FileNotFoundError` / `EmptyDataError` — a fresh empty ledger is persisted);
a present file is a list of data rows.  A non-empty row set is date-coerced,
rows with unparsable dates are dropped, and the cleaned ledger is
re-persisted by `save_data`.  Returns the ledger and the resulting file
contents. -/
def initStore : Option (List FileRow) → Ledger × List FileRow
  | none => ([], [])
  | some rows =>
    if rows = [] then ([], rows)
    else
      let ts := rows.filterMap rowToTransaction
      (ts, ts.map serialize)

/-- `Finance.add_transaction`: validates the date with `strptime`, the
amount with `float`, and membership of the category in `CATEGORIES`; any
validation failure raises `ValueError` before the DataFrame is touched and
is reported as `false`.  On success the row is appended (with its date
parsed) and the ledger is re-persisted; `persistOk` models whether that
write step succeeds — when it raises, the exception is swallowed and
`false` is returned, but the append has already happened. -/
def add_transaction (persistOk : Bool) (st : Ledger)
    (date amount category description : String) : Ledger × Bool :=
  match strptimeDMY date with
  | none => (st, false)
  | some dt =>
    match parse_amount amount with
    | none => (st, false)
    | some amt =>
      if category ∈ CATEGORIES then
        (st ++ [⟨dt, amt, category, some description⟩], persistOk)
      else (st, false)

/-- `Finance.get_transactions`: parses both bounds with `strptime`; if
either raises `ValueError` the handler returns an empty frame, otherwise the
rows whose date lies in the closed interval are returned by boolean mask,
in ledger order.  Read-only: the ledger itself is never modified. -/
def get_transactions (st : Ledger) (startDate endDate : String) : List Transaction :=
  match strptimeDMY startDate, strptimeDMY endDate with
  | some sd, some ed => st.filter (fun t => Date.le sd t.date && Date.le t.date ed)
  | _, _ => []

/-- Sum of the amounts of the transactions in a given category: the group
sum produced by `groupby("Category")["Amount"].sum()` for a present group,
and `0` (the `reindex` fill value) for an absent one. -/
def catTotal (c : String) (ts : List Transaction) : ℚ :=
  ((ts.filter (fun t => t.category == c)).map Transaction.amount).sum

/-- The aggregation of `plot_transactions` (spec operation `compute_totals`):
`groupby("Category")["Amount"].sum().reindex(CATEGORIES, fill_value=0)` —
one total per canonical category, in the fixed `CATEGORIES` order. -/
def compute_totals (ts : List Transaction) : List (String × ℚ) :=
  CATEGORIES.map (fun c => (c, catTotal c ts))

/-- The date text of a persisted row in the exact canonical shape: two-digit
day, dash, two-digit month, dash, four-digit year. -/
def exactPattern (s : String) : Bool :=
  match s.data with
  | [d1, d2, '-', m1, m2, '-', y1, y2, y3, y4] =>
    allDigits [d1, d2, m1, m2, y1, y2, y3, y4]
  | _ => false

/-- The ledger states reachable from a given persisted file: load it once
with `initialize`, then perform any sequence of `add_transaction` calls
(each with any persistence outcome). -/
inductive Reach (file : Option (List FileRow)) : Ledger → Prop
  | init : Reach file (initStore file).1
  | step (st : Ledger) (pOk : Bool) (d a c desc : String) :
      Reach file st → Reach file (add_transaction pOk st d a c desc).1

/-- Shape of a string accepted by the date parser, stated per the amended
claim: three dash-separated all-digit fields, the day and month of one or
two digits, the year of exactly four, denoting a real calendar day of a
positive year. -/
def amendedDateFormat (s : String) (dt : Date) : Prop :=
  ∃ a b c : List Char,
    s.data = a ++ '-' :: (b ++ '-' :: c) ∧
    allDigits a = true ∧ allDigits b = true ∧ allDigits c = true ∧
    1 ≤ a.length ∧ a.length ≤ 2 ∧ 1 ≤ b.length ∧ b.length ≤ 2 ∧ c.length = 4 ∧
    natOfDigits a = dt.day ∧ natOfDigits b = dt.month ∧ natOfDigits c = dt.year ∧
    1 ≤ dt.day ∧ dt.day ≤ daysInMonth dt.year dt.month ∧
    1 ≤ dt.month ∧ dt.month ≤ 12 ∧ 1 ≤ dt.year

/-! ### Helper lemmas about characters and digit strings -/

theorem digitChar_facts : ∀ k, k < 10 →
    (Nat.digitChar k).isDigit = true ∧ Nat.digitChar k ≠ '-' ∧
      charDigitVal (Nat.digitChar k) = k := by
  decide

theorem charDigitVal_le_of_isDigit {c : Char} (h : c.isDigit = true) :
    charDigitVal c ≤ 9 := by
  simp [Char.isDigit] at h
  obtain ⟨h1, h2⟩ := h
  have : c.toNat ≤ 57 := h2
  unfold charDigitVal
  omega

theorem ne_dash_of_isDigit {c : Char} (h : c.isDigit = true) : c ≠ '-' := by
  intro hEq
  rw [hEq] at h
  exact absurd h (by decide)

theorem digitChar_charDigitVal {c : Char} (h : c.isDigit = true) :
    Nat.digitChar (charDigitVal c) = c := by
  simp [Char.isDigit] at h
  obtain ⟨h1, h2⟩ := h
  have hlo : 48 ≤ c.toNat := h1
  have hhi : c.toNat ≤ 57 := h2
  have hc : c = Char.ofNat c.toNat := (Char.ofNat_toNat c).symm
  unfold charDigitVal
  interval_cases h : c.toNat <;> rw [hc] <;> decide

/-! ### Helper lemmas about `splitDash` -/

theorem splitDash_ne_nil : ∀ cs : List Char, splitDash cs ≠ []
  | [] => by simp [splitDash]
  | c :: rest => by
    unfold splitDash
    split
    · simp
    · split <;> simp

theorem splitDash_append (a rest : List Char) (h : ∀ c ∈ a, c ≠ '-') :
    splitDash (a ++ '-' :: rest) = a :: splitDash rest := by
  induction a with
  | nil => simp [splitDash]
  | cons c a ih =>
    have hc : c ≠ '-' := h c (by simp)
    have ih' := ih (fun x hx => h x (by simp [hx]))
    simp only [List.cons_append, splitDash, if_neg hc]
    rw [List.append_eq, ih']

theorem splitDash_no_dash (a : List Char) (h : ∀ c ∈ a, c ≠ '-') :
    splitDash a = [a] := by
  induction a with
  | nil => simp [splitDash]
  | cons c a ih =>
    have hc : c ≠ '-' := h c (by simp)
    have ih' := ih (fun x hx => h x (by simp [hx]))
    simp only [splitDash, if_neg hc, ih']

theorem joinDash_splitDash : ∀ cs : List Char, joinDash (splitDash cs) = cs := by
  intro cs
  induction cs with
  | nil => simp [splitDash, joinDash]
  | cons c rest ih =>
    by_cases hc : c = '-'
    · subst hc
      simp only [splitDash, if_pos rfl]
      obtain ⟨g, gs, hg⟩ : ∃ g gs, splitDash rest = g :: gs := by
        cases hsp : splitDash rest with
        | nil => exact absurd hsp (splitDash_ne_nil rest)
        | cons g gs => exact ⟨g, gs, rfl⟩
      rw [hg] at ih ⊢
      simpa [joinDash] using ih
    · simp only [splitDash, if_neg hc]
      obtain ⟨g, gs, hg⟩ : ∃ g gs, splitDash rest = g :: gs := by
        cases hsp : splitDash rest with
        | nil => exact absurd hsp (splitDash_ne_nil rest)
        | cons g gs => exact ⟨g, gs, rfl⟩
      rw [hg] at ih ⊢
      cases gs with
      | nil => simpa [joinDash] using ih
      | cons g2 gs2 =>
        simp only [joinDash] at ih ⊢
        rw [← ih]
        simp

/-! ### Helper lemmas about digit tokens -/

theorem allDigits_mem {a : List Char} (h : allDigits a = true) :
    ∀ c ∈ a, c.isDigit = true := by
  intro c hc
  simp only [allDigits, List.all_eq_true] at h
  exact h c hc

theorem allDigits_ne_dash {a : List Char} (h : allDigits a = true) :
    ∀ c ∈ a, c ≠ '-' :=
  fun c hc => ne_dash_of_isDigit (allDigits_mem h c hc)

theorem natOfDigits_foldl_lt :
    ∀ (cs : List Char) (acc : Nat), allDigits cs = true →
      cs.foldl (fun a c => 10 * a + charDigitVal c) acc < (acc + 1) * 10 ^ cs.length := by
  intro cs
  induction cs with
  | nil => intro acc _; simpa using Nat.lt_succ_self acc
  | cons c cs ih =>
    intro acc hall
    simp only [allDigits, List.all_cons, Bool.and_eq_true] at hall
    obtain ⟨hc, hcs⟩ := hall
    have hv : charDigitVal c ≤ 9 := charDigitVal_le_of_isDigit hc
    have h1 := ih (10 * acc + charDigitVal c) (by simpa [allDigits] using hcs)
    simp only [List.foldl_cons, List.length_cons]
    calc List.foldl (fun a c => 10 * a + charDigitVal c) (10 * acc + charDigitVal c) cs
        < (10 * acc + charDigitVal c + 1) * 10 ^ cs.length := h1
      _ ≤ ((acc + 1) * 10) * 10 ^ cs.length := by
          have h2 : 10 * acc + charDigitVal c + 1 ≤ (acc + 1) * 10 := by omega
          exact Nat.mul_le_mul_right _ h2
      _ = (acc + 1) * 10 ^ (cs.length + 1) := by ring

theorem natOfDigits_lt {cs : List Char} (h : allDigits cs = true) :
    natOfDigits cs < 10 ^ cs.length := by
  simpa [natOfDigits] using natOfDigits_foldl_lt cs 0 h

theorem daysInMonth_le31 (y m : Nat) : daysInMonth y m ≤ 31 := by
  unfold daysInMonth
  split_ifs <;> omega

theorem dayTok_some {cs : List Char} {d : Nat} (h : dayTok cs = some d) :
    allDigits cs = true ∧ 1 ≤ cs.length ∧ cs.length ≤ 2 ∧
      natOfDigits cs = d ∧ 1 ≤ d ∧ d ≤ 31 := by
  unfold dayTok at h
  split at h
  · cases h
    tauto
  · cases h

theorem monthTok_some {cs : List Char} {m : Nat} (h : monthTok cs = some m) :
    allDigits cs = true ∧ 1 ≤ cs.length ∧ cs.length ≤ 2 ∧
      natOfDigits cs = m ∧ 1 ≤ m ∧ m ≤ 12 := by
  unfold monthTok at h
  split at h
  · cases h
    tauto
  · cases h

theorem yearTok_some {cs : List Char} {y : Nat} (h : yearTok cs = some y) :
    allDigits cs = true ∧ cs.length = 4 ∧ natOfDigits cs = y ∧ 1 ≤ y ∧ y ≤ 9999 := by
  unfold yearTok at h
  split at h
  · cases h
    rename_i hcond
    obtain ⟨h1, h2, h3⟩ := hcond
    refine ⟨h1, h2, rfl, h3, ?_⟩
    have := natOfDigits_lt h1
    rw [h2] at this
    omega
  · cases h

/-- Characterization of the date parser: `strptime` succeeds exactly on the
dash-separated digit shapes described by `amendedDateFormat`. -/
theorem strptime_spec (s : String) (dt : Date) :
    strptimeDMY s = some dt ↔ amendedDateFormat s dt := by
  constructor
  · intro h
    unfold strptimeDMY at h
    rcases hsp : splitDash s.data with _ | ⟨a, _ | ⟨b, _ | ⟨c, _ | ⟨e, tl⟩⟩⟩⟩ <;>
      rw [hsp] at h <;> dsimp only at h
    case nil => cases h
    case cons.nil => cases h
    case cons.cons.nil => cases h
    case cons.cons.cons.cons => cases h
    cases hd : dayTok a with
    | none => rw [hd] at h; cases h
    | some d =>
      cases hm : monthTok b with
      | none => rw [hd, hm] at h; cases h
      | some m =>
        cases hy : yearTok c with
        | none => rw [hd, hm, hy] at h; cases h
        | some y =>
          rw [hd, hm, hy] at h
          dsimp only at h
          split at h
          · rename_i hle
            cases h
            obtain ⟨ha1, ha2, ha3, ha4, ha5, ha6⟩ := dayTok_some hd
            obtain ⟨hb1, hb2, hb3, hb4, hb5, hb6⟩ := monthTok_some hm
            obtain ⟨hc1, hc2, hc3, hc4, hc5⟩ := yearTok_some hy
            refine ⟨a, b, c, ?_, ha1, hb1, hc1, ha2, ha3, hb2, hb3, hc2,
              ha4, hb4, hc3, ha5, hle, hb5, hb6, hc4⟩
            have hj := joinDash_splitDash s.data
            rw [hsp] at hj
            simpa [joinDash] using hj.symm
          · cases h
  · intro h
    obtain ⟨a, b, c, hdata, ha, hb, hc, hal1, hal2, hbl1, hbl2, hcl,
      hva, hvb, hvc, hd1, hd2, hm1, hm2, hy1⟩ := h
    unfold strptimeDMY
    rw [hdata]
    rw [splitDash_append a _ (allDigits_ne_dash ha),
      splitDash_append b _ (allDigits_ne_dash hb),
      splitDash_no_dash c (allDigits_ne_dash hc)]
    dsimp only
    have hdt : dayTok a = some dt.day := by
      unfold dayTok
      rw [if_pos ⟨ha, hal1, hal2, by omega, by
        have := daysInMonth_le31 dt.year dt.month
        omega⟩]
      rw [hva]
    have hmt : monthTok b = some dt.month := by
      unfold monthTok
      rw [if_pos ⟨hb, hbl1, hbl2, by omega, by omega⟩]
      rw [hvb]
    have hyt : yearTok c = some dt.year := by
      unfold yearTok
      rw [if_pos ⟨hc, hcl, by omega⟩]
      rw [hvc]
    rw [hdt, hmt, hyt]
    dsimp only
    rw [if_pos hd2]

/-! ### Round-trip lemmas between parsing and formatting -/

theorem pad2_allDigits {n : Nat} (h : n < 100) : allDigits (pad2 n) = true := by
  simp only [pad2, allDigits, List.all_cons, List.all_nil, Bool.and_eq_true]
  exact ⟨(digitChar_facts (n / 10) (by omega)).1,
    (digitChar_facts (n % 10) (by omega)).1, trivial⟩

theorem pad4_allDigits {n : Nat} (h : n < 10000) : allDigits (pad4 n) = true := by
  simp only [pad4, allDigits, List.all_cons, List.all_nil, Bool.and_eq_true]
  exact ⟨(digitChar_facts (n / 1000) (by omega)).1,
    (digitChar_facts (n / 100 % 10) (by omega)).1,
    (digitChar_facts (n / 10 % 10) (by omega)).1,
    (digitChar_facts (n % 10) (by omega)).1, trivial⟩

theorem pad2_val {n : Nat} (h : n < 100) : natOfDigits (pad2 n) = n := by
  have h1 := (digitChar_facts (n / 10) (by omega)).2.2
  have h2 := (digitChar_facts (n % 10) (by omega)).2.2
  simp only [natOfDigits, pad2, List.foldl_cons, List.foldl_nil, h1, h2]
  omega

theorem pad4_val {n : Nat} (h : n < 10000) : natOfDigits (pad4 n) = n := by
  have h1 := (digitChar_facts (n / 1000) (by omega)).2.2
  have h2 := (digitChar_facts (n / 100 % 10) (by omega)).2.2
  have h3 := (digitChar_facts (n / 10 % 10) (by omega)).2.2
  have h4 := (digitChar_facts (n % 10) (by omega)).2.2
  simp only [natOfDigits, pad4, List.foldl_cons, List.foldl_nil, h1, h2, h3, h4]
  omega

/-- Every date the parser produces is a valid calendar day with a four-digit
year. -/
theorem strptimeDMY_dateValid {s : String} {dt : Date}
    (h : strptimeDMY s = some dt) : dateValid dt = true := by
  obtain ⟨a, b, c, hdata, ha, hb, hc, hal1, hal2, hbl1, hbl2, hcl, hva, hvb, hvc,
    hd1, hd2, hm1, hm2, hy1⟩ := (strptime_spec s dt).mp h
  have hylt : dt.year ≤ 9999 := by
    have hlt := natOfDigits_lt hc
    rw [hcl, hvc] at hlt
    omega
  simp only [dateValid, decide_eq_true_eq]
  exact ⟨hy1, hylt, hm1, hm2, hd1, hd2⟩

/-- Formatting a valid date and parsing it back returns the same date. -/
theorem parse_formatDMY {dt : Date} (h : dateValid dt = true) :
    strptimeDMY (formatDMY dt) = some dt := by
  simp only [dateValid, decide_eq_true_eq] at h
  obtain ⟨hy1, hy2, hm1, hm2, hd1, hd2⟩ := h
  have hd31 : dt.day ≤ 31 := le_trans hd2 (daysInMonth_le31 _ _)
  apply (strptime_spec _ dt).mpr
  refine ⟨pad2 dt.day, pad2 dt.month, pad4 dt.year, ?_, pad2_allDigits (by omega),
    pad2_allDigits (by omega), pad4_allDigits (by omega), by simp [pad2], by simp [pad2],
    by simp [pad2], by simp [pad2], by simp [pad4],
    pad2_val (by omega), pad2_val (by omega), pad4_val (by omega),
    hd1, hd2, hm1, hm2, hy1⟩
  simp [formatDMY, pad2, pad4]

/-- Parsing a date text in the exact canonical shape and re-formatting the
result reproduces the text unchanged. -/
theorem format_of_exactPattern {s : String} {dt : Date}
    (hex : exactPattern s = true) (h : strptimeDMY s = some dt) :
    formatDMY dt = s := by
  unfold exactPattern at hex
  split at hex
  case h_2 => cases hex
  case h_1 d1 d2 m1 m2 y1 y2 y3 y4 heq =>
    have hdig := allDigits_mem hex
    have hD1 : d1.isDigit = true := hdig d1 (by simp)
    have hD2 : d2.isDigit = true := hdig d2 (by simp)
    have hM1 : m1.isDigit = true := hdig m1 (by simp)
    have hM2 : m2.isDigit = true := hdig m2 (by simp)
    have hY1 : y1.isDigit = true := hdig y1 (by simp)
    have hY2 : y2.isDigit = true := hdig y2 (by simp)
    have hY3 : y3.isDigit = true := hdig y3 (by simp)
    have hY4 : y4.isDigit = true := hdig y4 (by simp)
    obtain ⟨a, b, c, hdata, ha, hb, hc, hal1, hal2, hbl1, hbl2, hcl,
      hva, hvb, hvc, hd1, hd2, hm1, hm2, hy1⟩ := (strptime_spec s dt).mp h
    have hsa : splitDash s.data = [a, b, c] := by
      rw [hdata, splitDash_append a _ (allDigits_ne_dash ha),
        splitDash_append b _ (allDigits_ne_dash hb),
        splitDash_no_dash c (allDigits_ne_dash hc)]
    have hsb : splitDash s.data = [[d1, d2], [m1, m2], [y1, y2, y3, y4]] := by
      rw [heq]
      have hshape : ([d1, d2, '-', m1, m2, '-', y1, y2, y3, y4] : List Char)
          = [d1, d2] ++ '-' :: ([m1, m2] ++ '-' :: [y1, y2, y3, y4]) := by simp
      rw [hshape,
        splitDash_append [d1, d2] _
          (by intro x hx; rcases (by simpa using hx) with h1 | h1 <;>
            exact h1 ▸ ne_dash_of_isDigit (by assumption)),
        splitDash_append [m1, m2] _
          (by intro x hx; rcases (by simpa using hx) with h1 | h1 <;>
            exact h1 ▸ ne_dash_of_isDigit (by assumption)),
        splitDash_no_dash [y1, y2, y3, y4]
          (by intro x hx; rcases (by simpa using hx) with h1 | h1 | h1 | h1 <;>
            exact h1 ▸ ne_dash_of_isDigit (by assumption))]
    rw [hsa] at hsb
    obtain ⟨haeq, hbeq, hceq⟩ : a = [d1, d2] ∧ b = [m1, m2] ∧ c = [y1, y2, y3, y4] := by
      simpa using hsb
    have hvd1 : charDigitVal d1 ≤ 9 := charDigitVal_le_of_isDigit hD1
    have hvd2 : charDigitVal d2 ≤ 9 := charDigitVal_le_of_isDigit hD2
    have hvm1 : charDigitVal m1 ≤ 9 := charDigitVal_le_of_isDigit hM1
    have hvm2 : charDigitVal m2 ≤ 9 := charDigitVal_le_of_isDigit hM2
    have hvy1 : charDigitVal y1 ≤ 9 := charDigitVal_le_of_isDigit hY1
    have hvy2 : charDigitVal y2 ≤ 9 := charDigitVal_le_of_isDigit hY2
    have hvy3 : charDigitVal y3 ≤ 9 := charDigitVal_le_of_isDigit hY3
    have hvy4 : charDigitVal y4 ≤ 9 := charDigitVal_le_of_isDigit hY4
    have hday : dt.day = 10 * charDigitVal d1 + charDigitVal d2 := by
      rw [← hva, haeq]
      simp [natOfDigits]
    have hmonth : dt.month = 10 * charDigitVal m1 + charDigitVal m2 := by
      rw [← hvb, hbeq]
      simp [natOfDigits]
    have hyear : dt.year = 10 * (10 * (10 * charDigitVal y1 + charDigitVal y2)
        + charDigitVal y3) + charDigitVal y4 := by
      rw [← hvc, hceq]
      simp [natOfDigits]
    apply String.ext
    rw [heq]
    show pad2 dt.day ++ '-' :: pad2 dt.month ++ '-' :: pad4 dt.year
      = [d1, d2, '-', m1, m2, '-', y1, y2, y3, y4]
    have e1 : pad2 dt.day = [d1, d2] := by
      unfold pad2
      rw [hday]
      have q1 : (10 * charDigitVal d1 + charDigitVal d2) / 10 = charDigitVal d1 := by omega
      have q2 : (10 * charDigitVal d1 + charDigitVal d2) % 10 = charDigitVal d2 := by omega
      rw [q1, q2, digitChar_charDigitVal hD1, digitChar_charDigitVal hD2]
    have e2 : pad2 dt.month = [m1, m2] := by
      unfold pad2
      rw [hmonth]
      have q1 : (10 * charDigitVal m1 + charDigitVal m2) / 10 = charDigitVal m1 := by omega
      have q2 : (10 * charDigitVal m1 + charDigitVal m2) % 10 = charDigitVal m2 := by omega
      rw [q1, q2, digitChar_charDigitVal hM1, digitChar_charDigitVal hM2]
    have e3 : pad4 dt.year = [y1, y2, y3, y4] := by
      unfold pad4
      rw [hyear]
      have q1 : (10 * (10 * (10 * charDigitVal y1 + charDigitVal y2) + charDigitVal y3)
          + charDigitVal y4) / 1000 = charDigitVal y1 := by omega
      have q2 : (10 * (10 * (10 * charDigitVal y1 + charDigitVal y2) + charDigitVal y3)
          + charDigitVal y4) / 100 % 10 = charDigitVal y2 := by omega
      have q3 : (10 * (10 * (10 * charDigitVal y1 + charDigitVal y2) + charDigitVal y3)
          + charDigitVal y4) / 10 % 10 = charDigitVal y3 := by omega
      have q4 : (10 * (10 * (10 * charDigitVal y1 + charDigitVal y2) + charDigitVal y3)
          + charDigitVal y4) % 10 = charDigitVal y4 := by omega
      rw [q1, q2, q3, q4, digitChar_charDigitVal hY1, digitChar_charDigitVal hY2,
        digitChar_charDigitVal hY3, digitChar_charDigitVal hY4]
    rw [e1, e2, e3]
    simp

/-! ### Helper lemmas about the store operations -/

theorem dateLe_iff (a b : Date) : Date.le a b = true ↔ specLe a b := by
  unfold Date.le specLe
  split_ifs <;> simp <;> omega

theorem keptAsText_not_na {s : String} (h : keptAsText s = true) :
    PANDAS_NA.contains s = false := by
  unfold keptAsText at h
  simp only [Bool.and_eq_true, Bool.not_eq_true'] at h
  exact h.1.1

theorem readCell_eq_self {s : String} (h : PANDAS_NA.contains s = false) :
    readCell s = some s := by
  unfold readCell
  rw [h]
  rfl

theorem coerceDMY_some {s : String} {dt : Date} (h : coerceDMY s = some dt) :
    strptimeDMY s = some dt ∧ inTimestampBounds dt = true := by
  unfold coerceDMY at h
  cases hp : strptimeDMY s with
  | none => rw [hp] at h; cases h
  | some dt2 =>
    rw [hp] at h
    dsimp only at h
    split at h
    · cases h
      rename_i hb
      exact ⟨rfl, hb⟩
    · cases h

theorem coerceDMY_of_parse {s : String} {dt : Date} (hp : strptimeDMY s = some dt)
    (hb : inTimestampBounds dt = true) : coerceDMY s = some dt := by
  unfold coerceDMY
  rw [hp]
  dsimp only
  rw [if_pos hb]

theorem rowToTransaction_serialize {t : Transaction} {d : String}
    (hv : dateValid t.date = true) (hb : inTimestampBounds t.date = true)
    (hd : t.description = some d) (hna : PANDAS_NA.contains d = false) :
    rowToTransaction (serialize t) = some t := by
  unfold rowToTransaction serialize
  rw [coerceDMY_of_parse (parse_formatDMY hv) hb]
  dsimp only
  rw [hd]
  dsimp only [Option.getD]
  rw [readCell_eq_self hna, ← hd]

theorem filterMap_serialize {L : Ledger}
    (h : ∀ t ∈ L, dateValid t.date = true ∧ inTimestampBounds t.date = true ∧
      presentKeptAsText t.description = true) :
    (L.map serialize).filterMap rowToTransaction = L := by
  induction L with
  | nil => simp
  | cons t L ih =>
    obtain ⟨hv, hb, hk⟩ := h t (by simp)
    obtain ⟨d, hd⟩ : ∃ d, t.description = some d := by
      cases hdesc : t.description with
      | none => rw [hdesc] at hk; cases hk
      | some d => exact ⟨d, rfl⟩
    have hna : PANDAS_NA.contains d = false := by
      rw [hd] at hk
      exact keptAsText_not_na hk
    have ih' := ih (fun x hx => h x (by simp [hx]))
    simp only [List.map_cons, List.filterMap_cons,
      rowToTransaction_serialize hv hb hd hna, ih']

theorem catTotal_cons (c : String) (t : Transaction) (ts : List Transaction) :
    catTotal c (t :: ts)
      = (if t.category = c then t.amount else 0) + catTotal c ts := by
  unfold catTotal
  by_cases h : t.category = c
  · simp [List.filter_cons, h]
  · simp [List.filter_cons, h]

theorem catTotal_nil (c : String) : catTotal c [] = 0 := rfl

theorem catTotal_eq_zero {c : String} {ts : List Transaction}
    (h : ∀ t ∈ ts, t.category ≠ c) : catTotal c ts = 0 := by
  unfold catTotal
  rw [List.filter_eq_nil_iff.mpr]
  · rfl
  · intro t ht
    simp [h t ht]

theorem add_transaction_cases (persistOk : Bool) (st : Ledger)
    (date amount category description : String) :
    (add_transaction persistOk st date amount category description).1 = st ∨
    ∃ dt amt, strptimeDMY date = some dt ∧ parse_amount amount = some amt ∧
      category ∈ CATEGORIES ∧
      (add_transaction persistOk st date amount category description).1
        = st ++ [⟨dt, amt, category, description⟩] := by
  unfold add_transaction
  cases hd : strptimeDMY date with
  | none => left; rfl
  | some dt =>
    dsimp only
    cases ha : parse_amount amount with
    | none => left; rfl
    | some amt =>
      dsimp only
      by_cases hc : category ∈ CATEGORIES
      · right
        exact ⟨dt, amt, rfl, rfl, hc, by rw [if_pos hc]⟩
      · left
        rw [if_neg hc]

theorem map_serialize_filterMap (rows : List FileRow)
    (hwf : ∀ r ∈ rows, coerceDMY r.date = none ∨
      (exactPattern r.date = true ∧ keptAsText r.category = true ∧
        keptAsText r.description = true)) :
    (rows.filterMap rowToTransaction).map serialize
      = rows.filter (fun r => (coerceDMY r.date).isSome) := by
  induction rows with
  | nil => rfl
  | cons r rows ih =>
    have ih' := ih (fun x hx => hwf x (by simp [hx]))
    cases hp : coerceDMY r.date with
    | none =>
      have hrow : rowToTransaction r = none := by
        unfold rowToTransaction
        rw [hp]
      simp [List.filterMap_cons, hrow, List.filter_cons, hp, ih']
    | some dt =>
      obtain ⟨hex, hcat, hdesc⟩ :
          exactPattern r.date = true ∧ keptAsText r.category = true ∧
            keptAsText r.description = true := by
        rcases hwf r (by simp) with h | h
        · rw [h] at hp; cases hp
        · exact h
      have hfmt : formatDMY dt = r.date :=
        format_of_exactPattern hex (coerceDMY_some hp).1
      have hrow : rowToTransaction r
          = some ⟨dt, r.amount, r.category, readCell r.description⟩ := by
        unfold rowToTransaction
        rw [hp]
      have hread : readCell r.description = some r.description :=
        readCell_eq_self (keptAsText_not_na hdesc)
      simp [List.filterMap_cons, hrow, List.filter_cons, hp, ih', serialize,
        hfmt, hread]

/-! ### Claim theorems -/

/-- C1: for every ledger state and every input, if the date text fails the
day-month-year pattern, or the amount text is not a valid floating-point
literal, or the category is not one of Income, Expense, Investment, then
`add_transaction` returns `false` and the ledger is unchanged — no partial
insert. -/
theorem C1_validation_gating (persistOk : Bool) (st : Ledger)
    (date amount category description : String)
    (h : strptimeDMY date = none ∨ parse_amount amount = none ∨
      category ∉ CATEGORIES) :
    add_transaction persistOk st date amount category description = (st, false) := by
  unfold add_transaction
  rcases h with h | h | h
  · rw [h]
  · cases hd : strptimeDMY date with
    | none => rfl
    | some dt =>
      dsimp only
      rw [h]
  · cases hd : strptimeDMY date with
    | none => rfl
    | some dt =>
      dsimp only
      cases ha : parse_amount amount with
      | none => rfl
      | some amt =>
        dsimp only
        rw [if_neg h]

/-- C1 witness: a wrongly formatted date is rejected and the empty ledger
stays empty. -/
theorem C1_validation_gating_witness :
    (strptimeDMY "2024-01-01" = none ∨ parse_amount "50" = none ∨
        "Income" ∉ CATEGORIES) ∧
      add_transaction true [] "2024-01-01" "50" "Income" "x" = ([], false) :=
  ⟨Or.inl (by decide),
    C1_validation_gating true [] "2024-01-01" "50" "Income" "x" (Or.inl (by decide))⟩

/-- C2: when both bounds parse, `get_transactions` returns exactly the
subsequence of ledger transactions whose date lies in the closed interval
between the two bounds, preserving ledger order. -/
theorem C2_range_inclusivity (st : Ledger) (startDate endDate : String)
    (sd ed : Date) (hs : strptimeDMY startDate = some sd)
    (he : strptimeDMY endDate = some ed) :
    get_transactions st startDate endDate
      = st.filter (fun t => decide (specLe sd t.date ∧ specLe t.date ed)) ∧
    List.Sublist (get_transactions st startDate endDate) st := by
  have hmain : get_transactions st startDate endDate
      = st.filter (fun t => decide (specLe sd t.date ∧ specLe t.date ed)) := by
    unfold get_transactions
    rw [hs, he]
    dsimp only
    apply List.filter_congr
    intro t _
    rw [Bool.eq_iff_iff]
    simp only [Bool.and_eq_true, decide_eq_true_eq, dateLe_iff]
  exact ⟨hmain, hmain ▸ List.filter_sublist st⟩

/-- C2 witness: a concrete January query keeps the January record and drops
the February one. -/
theorem C2_range_inclusivity_witness :
    strptimeDMY "01-01-2024" = some ⟨2024, 1, 1⟩ ∧
    strptimeDMY "31-01-2024" = some ⟨2024, 1, 31⟩ ∧
    (get_transactions
        [⟨⟨2024, 1, 5⟩, 1, "Income", some "a"⟩, ⟨⟨2024, 2, 10⟩, 2, "Expense", some "b"⟩]
        "01-01-2024" "31-01-2024"
      = List.filter
          (fun t => decide (specLe ⟨2024, 1, 1⟩ t.date ∧ specLe t.date ⟨2024, 1, 31⟩))
          [⟨⟨2024, 1, 5⟩, 1, "Income", some "a"⟩, ⟨⟨2024, 2, 10⟩, 2, "Expense", some "b"⟩] ∧
    List.Sublist
      (get_transactions
        [⟨⟨2024, 1, 5⟩, 1, "Income", some "a"⟩, ⟨⟨2024, 2, 10⟩, 2, "Expense", some "b"⟩]
        "01-01-2024" "31-01-2024")
      [⟨⟨2024, 1, 5⟩, 1, "Income", some "a"⟩, ⟨⟨2024, 2, 10⟩, 2, "Expense", some "b"⟩]) :=
  ⟨by decide, by decide,
    C2_range_inclusivity
      [⟨⟨2024, 1, 5⟩, 1, "Income", some "a"⟩, ⟨⟨2024, 2, 10⟩, 2, "Expense", some "b"⟩]
      "01-01-2024" "31-01-2024" ⟨2024, 1, 1⟩ ⟨2024, 1, 31⟩ (by decide) (by decide)⟩

/-- C3: `compute_totals` always returns exactly the three canonical
categories in the fixed order Income, Expense, Investment; a category absent
from the input has total zero, and the empty input yields all-zero totals. -/
theorem C3_totals_shape (ts : List Transaction) :
    (compute_totals ts).map Prod.fst = CATEGORIES ∧
    (∀ c ∈ CATEGORIES, (∀ t ∈ ts, t.category ≠ c) → (c, (0 : ℚ)) ∈ compute_totals ts) ∧
    compute_totals [] = [("Income", 0), ("Expense", 0), ("Investment", 0)] := by
  refine ⟨?_, ?_, ?_⟩
  · rfl
  · intro c hc habs
    unfold compute_totals
    apply List.mem_map.mpr
    exact ⟨c, hc, by rw [catTotal_eq_zero habs]⟩
  · rfl

/-- C3 witness: a one-element Income ledger still reports all three
categories, with a zero Investment total. -/
theorem C3_totals_shape_witness :
    (compute_totals [⟨⟨2024, 1, 1⟩, 100, "Income", some "Salary"⟩]).map Prod.fst = CATEGORIES ∧
    ("Investment", (0 : ℚ)) ∈ compute_totals [⟨⟨2024, 1, 1⟩, 100, "Income", some "Salary"⟩] :=
  ⟨(C3_totals_shape [⟨⟨2024, 1, 1⟩, 100, "Income", some "Salary"⟩]).1,
    (C3_totals_shape [⟨⟨2024, 1, 1⟩, 100, "Income", some "Salary"⟩]).2.1 "Investment"
      (by decide) (by decide)⟩

/-- C4 counterexample: the text `1-1-2024` deviates from the exact
two-digit-day shape, yet date parsing succeeds on it — Python `strptime`
accepts one-digit day and month fields. -/
theorem C4_counterexample :
    strptimeDMY "1-1-2024" = some ⟨2024, 1, 1⟩ ∧ exactPattern "1-1-2024" = false := by
  constructor <;> decide

/-- C4 (amended): date parsing succeeds exactly on full-match day-month-year
texts whose day and month fields have one or two digits (values forming a
real calendar day), and whose year field has exactly four digits with a
positive value; every other text fails.  Unlike the original claim, a
single-digit day or month is accepted. -/
theorem C4_amended_parse_shape (s : String) (dt : Date) :
    strptimeDMY s = some dt ↔ amendedDateFormat s dt :=
  strptime_spec s dt

/-- C4 witness: a single-digit day and month with a four-digit year parses,
and its parse is described by the amended shape predicate. -/
theorem C4_amended_parse_shape_witness : amendedDateFormat "5-12-2024" ⟨2024, 12, 5⟩ :=
  (C4_amended_parse_shape "5-12-2024" ⟨2024, 12, 5⟩).mp (by decide)

/-- C5 counterexample: the persisted row `01-01-1500,5,Income,a` has a date
that parses under the fixed pattern (and is even in the canonical two-digit
shape), yet `initialize` drops it: `to_datetime(..., errors="coerce")`
coerces dates outside the pandas Timestamp range to `NaT`.  The claimed
"ledger contains exactly the well-formed rows" is therefore false — with an
unparsable row and this well-formed row present, only the in-range row
survives the load and the rewrite. -/
theorem C5_counterexample :
    strptimeDMY "01-01-1500" = some ⟨1500, 1, 1⟩ ∧
    exactPattern "01-01-1500" = true ∧
    strptimeDMY "nope" = none ∧
    initStore (some [⟨"nope", 1, "Income", "x"⟩, ⟨"01-01-1500", 5, "Income", "a"⟩,
        ⟨"02-03-2024", 7, "Expense", "b"⟩])
      = ([⟨⟨2024, 3, 2⟩, 7, "Expense", some "b"⟩],
          [⟨"02-03-2024", 7, "Expense", "b"⟩]) := by
  refine ⟨by decide, by decide, by decide, by decide⟩

/-- C5 (amended): `initialize` keeps exactly the rows whose date text parses
under the fixed pattern to a date within the pandas Timestamp range
(1677-09-22 through 2262-04-11) — a parseable but out-of-range date is
dropped like an unparsable one.  For a non-empty file whose rows either
fail that load test or have a canonical-shape in-range date and category
and description cells that `read_csv` keeps as text, the ledger contains
exactly the surviving rows in their original order and the file is
rewritten to exactly those rows verbatim.  (A surviving row whose
description is an NA spelling would instead reload as missing and be
rewritten as an empty cell.) -/
theorem C5_load_normalization (rows : List FileRow) (hne : rows ≠ [])
    (hwf : ∀ r ∈ rows, coerceDMY r.date = none ∨
      (exactPattern r.date = true ∧ keptAsText r.category = true ∧
        keptAsText r.description = true)) :
    (initStore (some rows)).1 = rows.filterMap rowToTransaction ∧
    (initStore (some rows)).2
      = rows.filter (fun r => (coerceDMY r.date).isSome) := by
  constructor
  · simp only [initStore, if_neg hne]
  · simp only [initStore, if_neg hne]
    exact map_serialize_filterMap rows hwf

/-- C5 witness: a file with one well-formed in-range row and one unparsable
row loads to just the well-formed row and rewrites the file to only that
row. -/
theorem C5_load_normalization_witness :
    (([⟨"01-01-2024", 5, "Income", "a"⟩, ⟨"nope", 7, "Expense", "b"⟩] : List FileRow) ≠ []) ∧
    (∀ r ∈ ([⟨"01-01-2024", 5, "Income", "a"⟩, ⟨"nope", 7, "Expense", "b"⟩] : List FileRow),
      coerceDMY r.date = none ∨
        (exactPattern r.date = true ∧ keptAsText r.category = true ∧
          keptAsText r.description = true)) ∧
    ((initStore (some [⟨"01-01-2024", 5, "Income", "a"⟩, ⟨"nope", 7, "Expense", "b"⟩])).1
        = List.filterMap rowToTransaction
            [⟨"01-01-2024", 5, "Income", "a"⟩, ⟨"nope", 7, "Expense", "b"⟩] ∧
      (initStore (some [⟨"01-01-2024", 5, "Income", "a"⟩, ⟨"nope", 7, "Expense", "b"⟩])).2
        = List.filter (fun r => (coerceDMY r.date).isSome)
            [⟨"01-01-2024", 5, "Income", "a"⟩, ⟨"nope", 7, "Expense", "b"⟩]) :=
  ⟨by decide, by decide,
    C5_load_normalization [⟨"01-01-2024", 5, "Income", "a"⟩, ⟨"nope", 7, "Expense", "b"⟩]
      (by decide) (by decide)⟩

/-- C6 counterexample: the Store permits an empty description (spec section
9), but persisting the well-formed ledger whose single transaction has
description `""` writes an empty Description cell, which `read_csv` reads
back as the missing value — the reloaded sequence differs from the
original, refuting the unconditional round-trip claim. -/
theorem C6_counterexample :
    dateValid (⟨2024, 1, 1⟩ : Date) = true ∧
    (initStore (some (List.map serialize [⟨⟨2024, 1, 1⟩, 5, "Income", some ""⟩]))).1
      = [⟨⟨2024, 1, 1⟩, 5, "Income", none⟩] ∧
    ([⟨⟨2024, 1, 1⟩, 5, "Income", none⟩] : Ledger)
      ≠ [⟨⟨2024, 1, 1⟩, 5, "Income", some ""⟩] := by
  refine ⟨by decide, by decide, by decide⟩

/-- C6 (amended): persisting a ledger of well-formed transactions — valid
calendar dates in the pandas Timestamp range (every in-memory Timestamp
is), canonical categories, and present descriptions that `read_csv` keeps
as text (in particular non-empty and not an NA spelling) — and reloading it
yields the identical ordered transaction sequence, and the persisted file
is unchanged by the reload. -/
theorem C6_round_trip (L : Ledger)
    (h : ∀ t ∈ L, dateValid t.date = true ∧ inTimestampBounds t.date = true ∧
      t.category ∈ CATEGORIES ∧ presentKeptAsText t.description = true) :
    initStore (some (L.map serialize)) = (L, L.map serialize) := by
  by_cases hL : L = []
  · subst hL
    rfl
  · have hne : L.map serialize ≠ [] := by
      intro hmap
      exact hL (List.map_eq_nil_iff.mp hmap)
    simp only [initStore, if_neg hne]
    rw [filterMap_serialize (fun t ht =>
      ⟨(h t ht).1, (h t ht).2.1, (h t ht).2.2.2⟩)]

/-- C6 witness: a concrete one-row ledger round-trips through persistence. -/
theorem C6_round_trip_witness :
    (∀ t ∈ ([⟨⟨2024, 1, 15⟩, 100, "Income", some "Salary"⟩] : Ledger),
      dateValid t.date = true ∧ inTimestampBounds t.date = true ∧
        t.category ∈ CATEGORIES ∧ presentKeptAsText t.description = true) ∧
    initStore (some (List.map serialize [⟨⟨2024, 1, 15⟩, 100, "Income", some "Salary"⟩]))
      = ([⟨⟨2024, 1, 15⟩, 100, "Income", some "Salary"⟩],
          List.map serialize [⟨⟨2024, 1, 15⟩, 100, "Income", some "Salary"⟩]) :=
  ⟨by decide, C6_round_trip [⟨⟨2024, 1, 15⟩, 100, "Income", some "Salary"⟩] (by decide)⟩

/-- C7: for every input sequence of transactions (whose categories are, as
the data model requires, among the three canonical ones), the sum of the
three returned totals equals the sum of all input amounts. -/
theorem C7_aggregation_total (ts : List Transaction)
    (h : ∀ t ∈ ts, t.category ∈ CATEGORIES) :
    ((compute_totals ts).map Prod.snd).sum = (ts.map Transaction.amount).sum := by
  induction ts with
  | nil => simp [compute_totals, catTotal, CATEGORIES]
  | cons t ts ih =>
    have ht : t.category ∈ CATEGORIES := h t (by simp)
    have ih' := ih (fun x hx => h x (by simp [hx]))
    simp only [compute_totals, CATEGORIES, List.map_cons, List.map_nil,
      List.sum_cons, List.sum_nil] at ih' ⊢
    rw [catTotal_cons, catTotal_cons, catTotal_cons]
    rcases (by simpa [CATEGORIES] using ht :
        t.category = "Income" ∨ t.category = "Expense" ∨ t.category = "Investment")
      with h1 | h1 | h1 <;>
      rw [h1] <;> simp <;> rw [← ih'] <;> ring

/-- C7 witness: concrete Income and Expense amounts add up across the three
reported totals. -/
theorem C7_aggregation_total_witness :
    (∀ t ∈ ([⟨⟨2024, 1, 1⟩, 100, "Income", some "s"⟩, ⟨⟨2024, 1, 2⟩, 40, "Expense", some "r"⟩] : List Transaction),
      t.category ∈ CATEGORIES) ∧
    ((compute_totals [⟨⟨2024, 1, 1⟩, 100, "Income", some "s"⟩, ⟨⟨2024, 1, 2⟩, 40, "Expense", some "r"⟩]).map
        Prod.snd).sum
      = (List.map Transaction.amount
          [⟨⟨2024, 1, 1⟩, 100, "Income", some "s"⟩, ⟨⟨2024, 1, 2⟩, 40, "Expense", some "r"⟩]).sum :=
  ⟨by decide,
    C7_aggregation_total
      [⟨⟨2024, 1, 1⟩, 100, "Income", some "s"⟩, ⟨⟨2024, 1, 2⟩, 40, "Expense", some "r"⟩] (by decide)⟩

/-- C8 counterexample: loading a persisted row whose date parses but whose
category is `Food` produces a reachable ledger state storing a category
outside the canonical three, refuting the claimed invariant. -/
theorem C8_counterexample :
    Reach (some [⟨"01-01-2024", 5, "Food", "x"⟩]) [⟨⟨2024, 1, 1⟩, 5, "Food", some "x"⟩] ∧
    ¬ (∀ t ∈ ([⟨⟨2024, 1, 1⟩, 5, "Food", some "x"⟩] : Ledger), t.category ∈ CATEGORIES) :=
  ⟨Reach.init, by decide⟩

/-- C8 (amended): in every ledger state reachable by `initialize` followed
by any sequence of `add_transaction` calls, every stored transaction has a
date that parses and re-formats under the fixed day-month-year pattern; and
provided every row of the initializing file carries a canonical category,
every stored category is one of Income, Expense, Investment —
`add_transaction` itself never stores a non-canonical category, but the
load path does not validate categories. -/
theorem C8_amended_invariant (file : Option (List FileRow)) (st : Ledger)
    (h : Reach file st) :
    (∀ t ∈ st, dateValid t.date = true) ∧
    ((∀ rows, file = some rows → ∀ r ∈ rows, r.category ∈ CATEGORIES) →
      ∀ t ∈ st, t.category ∈ CATEGORIES) := by
  induction h with
  | init =>
    constructor
    · intro t ht
      cases file with
      | none => simp [initStore] at ht
      | some rows =>
        by_cases hrows : rows = []
        · subst hrows
          simp [initStore] at ht
        · simp only [initStore, if_neg hrows] at ht
          obtain ⟨r, hr, hrt⟩ := List.mem_filterMap.mp ht
          unfold rowToTransaction at hrt
          cases hp : coerceDMY r.date with
          | none => rw [hp] at hrt; cases hrt
          | some dt =>
            rw [hp] at hrt
            cases hrt
            exact strptimeDMY_dateValid (coerceDMY_some hp).1
    · intro hfile t ht
      cases file with
      | none => simp [initStore] at ht
      | some rows =>
        by_cases hrows : rows = []
        · subst hrows
          simp [initStore] at ht
        · simp only [initStore, if_neg hrows] at ht
          obtain ⟨r, hr, hrt⟩ := List.mem_filterMap.mp ht
          unfold rowToTransaction at hrt
          cases hp : coerceDMY r.date with
          | none => rw [hp] at hrt; cases hrt
          | some dt =>
            rw [hp] at hrt
            cases hrt
            exact hfile rows rfl r hr
  | step st pOk d a c desc hr ih =>
    rcases add_transaction_cases pOk st d a c desc with heq | ⟨dt, amt, hd, ha, hc, heq⟩
    · rw [heq]
      exact ih
    · rw [heq]
      constructor
      · intro t ht
        rcases List.mem_append.mp ht with ht | ht
        · exact ih.1 t ht
        · have : t = ⟨dt, amt, c, some desc⟩ := by simpa using ht
          rw [this]
          exact strptimeDMY_dateValid hd
      · intro hfile t ht
        rcases List.mem_append.mp ht with ht | ht
        · exact ih.2 hfile t ht
        · have : t = ⟨dt, amt, c, some desc⟩ := by simpa using ht
          rw [this]
          exact hc

/-- C8 witness: from a file whose single row has a canonical category, the
state after loading and one successful append satisfies both invariant
parts. -/
theorem C8_amended_invariant_witness :
    Reach (some [⟨"05-01-2024", 3, "Income", "d"⟩])
      (add_transaction true (initStore (some [⟨"05-01-2024", 3, "Income", "d"⟩])).1
        "10-02-2024" "7" "Expense" "rent").1 ∧
    ((∀ t ∈ (add_transaction true (initStore (some [⟨"05-01-2024", 3, "Income", "d"⟩])).1
        "10-02-2024" "7" "Expense" "rent").1, dateValid t.date = true) ∧
      ((∀ rows, (some [⟨"05-01-2024", 3, "Income", "d"⟩] : Option (List FileRow)) = some rows →
          ∀ r ∈ rows, r.category ∈ CATEGORIES) →
        ∀ t ∈ (add_transaction true (initStore (some [⟨"05-01-2024", 3, "Income", "d"⟩])).1
          "10-02-2024" "7" "Expense" "rent").1, t.category ∈ CATEGORIES)) :=
  ⟨Reach.step _ _ _ _ _ _ Reach.init,
    C8_amended_invariant (some [⟨"05-01-2024", 3, "Income", "d"⟩]) _
      (Reach.step _ _ _ _ _ _ Reach.init)⟩

/-- C9: if either bound fails to parse, `get_transactions` returns the empty
sequence — the same observable result as a successful query over an empty
range — and, being a pure read, leaves the ledger unchanged. -/
theorem C9_invalid_bounds (st : Ledger) (startDate endDate : String)
    (h : strptimeDMY startDate = none ∨ strptimeDMY endDate = none) :
    get_transactions st startDate endDate = [] ∧
    get_transactions st startDate endDate
      = get_transactions st "02-01-2024" "01-01-2024" := by
  have hempty : get_transactions st startDate endDate = [] := by
    unfold get_transactions
    rcases h with h | h
    · rw [h]
    · cases hs : strptimeDMY startDate with
      | none => rfl
      | some sd => rw [h]
  have hrange : get_transactions st "02-01-2024" "01-01-2024" = [] := by
    unfold get_transactions
    rw [show strptimeDMY "02-01-2024" = some ⟨2024, 1, 2⟩ from by decide,
      show strptimeDMY "01-01-2024" = some ⟨2024, 1, 1⟩ from by decide]
    rw [List.filter_eq_nil_iff]
    intro t _
    intro hcontra
    rw [Bool.and_eq_true, dateLe_iff, dateLe_iff] at hcontra
    obtain ⟨h1, h2⟩ := hcontra
    unfold specLe at h1 h2
    dsimp only at h1 h2
    omega
  rw [hempty, hrange]
  exact ⟨rfl, rfl⟩

/-- C9 witness: an unparsable start bound yields the empty result on a
non-empty ledger. -/
theorem C9_invalid_bounds_witness :
    (strptimeDMY "2024-13-01" = none ∨ strptimeDMY "31-01-2024" = none) ∧
    (get_transactions [⟨⟨2024, 1, 5⟩, 1, "Income", some "a"⟩] "2024-13-01" "31-01-2024" = [] ∧
      get_transactions [⟨⟨2024, 1, 5⟩, 1, "Income", some "a"⟩] "2024-13-01" "31-01-2024"
        = get_transactions [⟨⟨2024, 1, 5⟩, 1, "Income", some "a"⟩] "02-01-2024" "01-01-2024") :=
  ⟨Or.inl (by decide),
    C9_invalid_bounds [⟨⟨2024, 1, 5⟩, 1, "Income", some "a"⟩] "2024-13-01" "31-01-2024"
      (Or.inl (by decide))⟩

/-- C10: when all three validations pass but the subsequent re-persist step
fails, `add_transaction` returns `false` even though the transaction has
already been appended to the in-memory ledger — a `false` result does not
imply the ledger is unchanged. -/
theorem C10_persist_failure (st : Ledger) (date amount category description : String)
    (dt : Date) (amt : ℚ) (hd : strptimeDMY date = some dt)
    (ha : parse_amount amount = some amt) (hc : category ∈ CATEGORIES) :
    add_transaction false st date amount category description
      = (st ++ [⟨dt, amt, category, some description⟩], false) ∧
    st ++ [⟨dt, amt, category, some description⟩] ≠ st := by
  constructor
  · unfold add_transaction
    rw [hd]
    dsimp only
    rw [ha]
    dsimp only
    rw [if_pos hc]
  · intro hEq
    have hlen := congrArg List.length hEq
    simp at hlen

/-- C10 witness: a valid transaction with a failing persist step is appended
yet reported as `false`. -/
theorem C10_persist_failure_witness :
    strptimeDMY "01-01-2024" = some ⟨2024, 1, 1⟩ ∧
    parse_amount "100" = some 100 ∧
    "Income" ∈ CATEGORIES ∧
    (add_transaction false [] "01-01-2024" "100" "Income" "Salary"
        = ([⟨⟨2024, 1, 1⟩, 100, "Income", some "Salary"⟩], false) ∧
      [⟨⟨2024, 1, 1⟩, (100 : ℚ), "Income", some "Salary"⟩] ≠ ([] : Ledger)) :=
  ⟨by decide, by with_unfolding_all rfl, by decide,
    C10_persist_failure [] "01-01-2024" "100" "Income" "Salary" ⟨2024, 1, 1⟩ 100
      (by decide) (by with_unfolding_all rfl) (by decide)⟩
